import Mathlib

/-!
Verification of the signal-http core against its specification.

This file gives a shallow embedding, in Lean 4, of the core of the
`signal-http` repository:

* the HTTP request parser `HttpRequest::parse` (src/http.rs, lines 95-221),
* the response serializer `HttpResponse::unparse` (src/http.rs, lines 258-298),
* the connection read/parse path `HttpServer::perform_reads`,
  `HttpServer::connection_readable` and `HttpServer::try_parse_request`
  (src/http.rs, lines 365-499),
* the connection-identifier allocator `calc_next_token`
  (src/bin/chat_server.rs, lines 149-167) together with the allocate/release
  discipline of `main` (insert on accept, remove on disconnect).

Strings are modelled as lists of bytes (`List Nat`, each entry < 256), which
matches the Rust code: buffers are `Vec<u8>` and every delimiter the parser
uses (CR, LF, space, tab, colon) is a single ASCII byte, so byte-level
splitting agrees with Rust's `&str` splitting on all valid UTF-8 input.
`to_lowercase`, `trim_start` and `char::is_whitespace` are modelled on their
ASCII behaviour.

Machine integers (`usize` on a 64-bit platform) are modelled as `Nat` with an
explicit modulus `W = 2^64`; `usize::MAX = W - 1`.
-/

/-- The number of 64-bit machine integers: `usize::MAX + 1` on a 64-bit
platform. Written as a literal so that `decide` and `omega` handle it. -/
def W : Nat := 18446744073709551616

/-- ASCII bytes of a (pure-ASCII) string literal; used to transcribe the
string constants appearing in the source. -/
def toB (s : String) : List Nat := s.toList.map Char.toNat

/-- `\r\n` as bytes. -/
def crlfB : List Nat := [13, 10]

/-- Rust `str::split("\r\n")`: split a byte sequence at every (leftmost,
non-overlapping) occurrence of CRLF. Like Rust's `split`, it yields at least
one piece, and empty pieces are kept. -/
def splitCRLF : List Nat → List (List Nat)
  | [] => [[]]
  | 13 :: 10 :: rest => [] :: splitCRLF rest
  | b :: rest =>
    match splitCRLF rest with
    | h :: t => (b :: h) :: t
    | [] => [[b]]

/-- Rust `str::split(&[' ', '\t'][..])`: split at every space or tab byte. -/
def splitWS : List Nat → List (List Nat)
  | [] => [[]]
  | b :: rest =>
    if b = 32 ∨ b = 9 then
      [] :: splitWS rest
    else
      match splitWS rest with
      | h :: t => (b :: h) :: t
      | [] => [[b]]

/-- Rust `str::splitn(2, ':')`: the part before the first colon, and, when a
colon occurs, the part after it. -/
def splitColon : List Nat → List Nat × Option (List Nat)
  | [] => ([], none)
  | 58 :: rest => ([], some rest)
  | b :: rest =>
    let p := splitColon rest
    (b :: p.1, p.2)

/-- Rust `str::trim_start` restricted to ASCII whitespace
(space and the control characters 9-13). -/
def trimStart (l : List Nat) : List Nat :=
  l.dropWhile (fun b => b = 32 || (9 ≤ b && b ≤ 13))

/-- ASCII lowercasing of a byte, modelling `str::to_lowercase` on ASCII. -/
def lowerB (l : List Nat) : List Nat :=
  l.map (fun b => if 65 ≤ b ∧ b ≤ 90 then b + 32 else b)

/-- Rust `"...".parse::<usize>()`: an optional leading `+`, then one or more
ASCII digits, rejecting values that do not fit in a `usize`. -/
def parseUsize (l : List Nat) : Option Nat :=
  let digits := match l with
    | 43 :: rest => rest
    | _ => l
  if digits = [] then none
  else if digits.all (fun b => 48 ≤ b && b ≤ 57) then
    let v := digits.foldl (fun acc b => acc * 10 + (b - 48)) 0
    if v < W then some v else none
  else none

/-- `HttpMethod` (src/http.rs lines 37-41). -/
inductive HttpMethod
  | GET
  | POST
deriving DecidableEq, Repr

/-- A fully formed HTTP request (src/http.rs lines 45-52); the borrowed
`&str` fields become byte lists. -/
structure HttpRequest where
  body : Option (List Nat)
  headers : List (List Nat × List Nat)
  method : HttpMethod
  path : List Nat
  version : List Nat
deriving DecidableEq, Repr

/-- The parser's internal `State` enum (src/http.rs lines 98-102). -/
inductive PState
  | readingRequestLine
  | readingHeaderLines
  | doneReadingHeaderLines
deriving DecidableEq, Repr

/-- The mutable locals of `HttpRequest::parse` (src/http.rs lines 104-111),
gathered into one record that the line loop threads through. -/
structure ScanSt where
  bodyStart : Nat := 0
  headers : List (List Nat × List Nat) := []
  method : Option HttpMethod := none
  path : Option (List Nat) := none
  version : Option (List Nat) := none
  bodyLen : Option Nat := none
  state : PState := .readingRequestLine
deriving DecidableEq, Repr

/-- The method resolved from the request line: the first
space/tab-separated token, compared against `"GET"` and `"POST"`
(src/http.rs lines 122-128). -/
def methodOfLine (line : List Nat) : Option HttpMethod :=
  match (splitWS line).head? with
  | some s =>
    if s = toB "GET" then some .GET
    else if s = toB "POST" then some .POST
    else none
  | none => none

/-- Processing of line 0, the request line (src/http.rs lines 117-141):
token 0 is the method, token 1 the path, token 2 the version; further tokens
are ignored. -/
def requestLineScan (line : List Nat) (st : ScanSt) : ScanSt :=
  { st with
    method := methodOfLine line
    path := (splitWS line)[1]?
    version := (splitWS line)[2]?
    state := .readingHeaderLines }

/-- Processing of a non-empty header line (src/http.rs lines 143-159):
split once at the first colon; if there is no colon the line is skipped,
otherwise the value is left-trimmed and the pair recorded, and a
`Content-Length` header (case-insensitively) that parses as a `usize`
updates the expected body length. -/
def headerLineScan (line : List Nat) (st : ScanSt) : ScanSt :=
  match splitColon line with
  | (name, some value0) =>
    let value := trimStart value0
    { st with
      headers := st.headers ++ [(name, value)]
      bodyLen :=
        if lowerB name = toB "content-length" then
          match parseUsize value with
          | some len => some len
          | none => st.bodyLen
        else st.bodyLen }
  | (_, none) => st

/-- The `for line in data.split("\r\n")` loop of `HttpRequest::parse`
(src/http.rs lines 113-171). `body_start` is advanced for every visited
line before the state dispatch; the loop breaks at the first empty line
seen in header state. -/
def scanLines : List (List Nat) → ScanSt → ScanSt
  | [], st => st
  | line :: rest, st =>
    let st := { st with bodyStart := st.bodyStart + line.length + 2 }
    match st.state with
    | .readingRequestLine => scanLines rest (requestLineScan line st)
    | .readingHeaderLines =>
      if line = [] then { st with state := .doneReadingHeaderLines }
      else scanLines rest (headerLineScan line st)
    | .doneReadingHeaderLines => st

/-- The scan of a whole buffer, from the parser's initial state. -/
def scanOf (data : List Nat) : ScanSt :=
  scanLines (splitCRLF data) {}

/-- The candidate body (src/http.rs lines 104, 173-175): the bytes after the
header-terminating empty line, when that offset is strictly inside the
buffer. -/
def bodyOf (data : List Nat) : List Nat :=
  let st := scanOf data
  if 0 < st.bodyStart ∧ st.bodyStart < data.length then data.drop st.bodyStart
  else []

/-- Result of `HttpRequest::parse`: `Ok(Some _)` / `Ok(None)` / `Err(_)`
(src/http.rs lines 92-94). -/
inductive ParseResult
  | complete (req : HttpRequest)
  | incomplete
  | malformed
deriving DecidableEq, Repr

/-- `HttpRequest::parse` (src/http.rs lines 95-221). The final `match` over
`(state, method, path, version)` is transcribed arm by arm; the two dead
`ReadingRequestLine` arms of the source are subsumed by the same
incomplete/malformed outcome their live `ReadingHeaderLines` twins produce.
The `GET` arm precedes the guarded arm exactly as in the source, so `GET`
completes without consulting `done` or the body. -/
def parse (data : List Nat) (done : Bool) : ParseResult :=
  let st := scanOf data
  let body := bodyOf data
  match st.state with
  | .readingRequestLine => if !done then .incomplete else .malformed
  | .readingHeaderLines => if !done then .incomplete else .malformed
  | .doneReadingHeaderLines =>
    match st.method, st.path, st.version with
    | some m, some p, some v =>
      if m = .GET then
        .complete ⟨none, st.headers, .GET, p, v⟩
      else if done || st.bodyLen = some body.length then
        .complete ⟨some body, st.headers, m, p, v⟩
      else
        .incomplete
    | _, _, _ => .malformed

/-- `BodyContent` (src/http.rs lines 31-35): a static or owned text payload;
both carry the same bytes here. -/
inductive BodyContent
  | str (s : List Nat)
  | string (s : List Nat)
deriving DecidableEq, Repr

/-- The payload bytes of either `BodyContent` arm. -/
def bodyBytes : BodyContent → List Nat
  | .str s => s
  | .string s => s

/-- `HttpResponse` (src/http.rs lines 226-232). -/
structure HttpResponse where
  body : BodyContent
  status : Nat
  statusText : List Nat
  headers : List (List Nat × List Nat)
  version : List Nat
deriving DecidableEq, Repr

/-- Decimal digits of a number, with enough fuel to terminate; models
`usize::to_string`. -/
def decDigitsAux : Nat → Nat → List Nat
  | 0, _ => []
  | fuel + 1, n =>
    if n < 10 then [48 + n]
    else decDigitsAux fuel (n / 10) ++ [48 + n % 10]

/-- ASCII decimal representation of a `Nat`, modelling `to_string` on
unsigned integers. -/
def toDec (n : Nat) : List Nat := decDigitsAux (n + 1) n

/-- The status text derived from the code in `HttpResponse::new`
(src/http.rs lines 246-252). -/
def statusTextFor (status : Nat) : List Nat :=
  match status with
  | 200 => toB "OK"
  | 400 => toB "Bad Request"
  | 404 => toB "Not Found"
  | 501 => toB "Not Implemented"
  | _ => []

/-- `HttpResponse::new` (src/http.rs lines 237-256). -/
def HttpResponse.new (version : List Nat) (status : Nat)
    (headers : List (List Nat × List Nat)) (body : BodyContent) : HttpResponse :=
  { body := body
    status := status
    statusText := statusTextFor status
    headers := headers
    version := version }

/-- `HttpResponse::unparse` (src/http.rs lines 258-298), transcribed push by
push: status line, then each stored header, then the synthesized
`Content-Length`, then `Connection: Close` and the blank line, then the body
bytes. The source matches on `BodyContent` twice with identical arms up to
the payload; both collapse to `bodyBytes`. -/
def unparse (r : HttpResponse) : List Nat :=
  let resp := r.version ++ [32] ++ toDec r.status ++ [32] ++ r.statusText ++ crlfB
  let resp := r.headers.foldl
    (fun acc nv => acc ++ nv.1 ++ [58, 32] ++ nv.2 ++ crlfB) resp
  let resp := resp ++ toB "Content-Length: " ++ toDec (bodyBytes r.body).length ++ crlfB
  let resp := resp ++ toB "Connection: Close" ++ crlfB ++ crlfB
  resp ++ bodyBytes r.body

/-- `ConnectionMode` (src/http.rs lines 301-305). -/
inductive ConnectionMode
  | reading
  | writing
deriving DecidableEq, Repr

/-- Whether the mode is `Writing`; the boolean `cx.mode == ConnectionMode::Writing`
passed to the parser in `try_parse_request`. -/
def ConnectionMode.isWriting : ConnectionMode → Bool
  | .writing => true
  | .reading => false

/-- A `Connection` (src/http.rs lines 307-312) without its socket handle.
The buffer is modelled by its filled portion: the Rust buffer's bytes past
`buffer_idx` in reading mode are the zero padding left by `resize` and are
never parsed. -/
structure Conn where
  buffer : List Nat
  bufferIdx : Nat
  mode : ConnectionMode
deriving DecidableEq, Repr

/-- Whether a byte sequence is valid UTF-8 (RFC 3629, the check performed by
`str::from_utf8`). `need` is the number of continuation bytes still
expected, which must lie in `lo..=hi` for the first of them and in
`0x80..=0xBF` afterwards. -/
def utf8Aux : List Nat → Nat → Nat → Nat → Bool
  | [], need, _, _ => need = 0
  | b :: rest, 0, _, _ =>
    if b < 0x80 then utf8Aux rest 0 0 0
    else if b < 0xC2 then false
    else if b ≤ 0xDF then utf8Aux rest 1 0x80 0xBF
    else if b = 0xE0 then utf8Aux rest 2 0xA0 0xBF
    else if b = 0xED then utf8Aux rest 2 0x80 0x9F
    else if b ≤ 0xEF then utf8Aux rest 2 0x80 0xBF
    else if b = 0xF0 then utf8Aux rest 3 0x90 0xBF
    else if b ≤ 0xF3 then utf8Aux rest 3 0x80 0xBF
    else if b = 0xF4 then utf8Aux rest 3 0x80 0x8F
    else false
  | b :: rest, need + 1, lo, hi =>
    if lo ≤ b && b ≤ hi then utf8Aux rest need 0x80 0xBF else false

/-- `str::from_utf8(..).is_ok()` on a byte buffer. -/
def utf8Valid (bs : List Nat) : Bool := utf8Aux bs 0 0 0

/-- The fixed 400 response literal built in the `Err` arm of
`try_parse_request` (src/http.rs lines 485-491). -/
def resp400 : HttpResponse :=
  { body := .str []
    status := 400
    statusText := toB "Bad Request"
    headers := []
    version := toB "HTTP/1.1" }

/-- `HttpServer::try_parse_request` (src/http.rs lines 469-499): decode the
filled buffer as UTF-8 (silently doing nothing if that fails), parse it with
`input_closed = (mode == Writing)`, and on `Ok(Some _)` / `Err(_)` replace
the buffer with a serialized response, reset the cursor and switch to
writing; `Ok(None)` leaves the connection untouched. -/
def tryParseRequest (handler : HttpRequest → HttpResponse) (cx : Conn) : Conn :=
  if utf8Valid (cx.buffer.take cx.bufferIdx) then
    match parse (cx.buffer.take cx.bufferIdx) cx.mode.isWriting with
    | .complete req =>
      { buffer := unparse (handler req), bufferIdx := 0, mode := .writing }
    | .incomplete => cx
    | .malformed =>
      { buffer := unparse resp400, bufferIdx := 0, mode := .writing }
  else cx

/-- One result of `TcpStream::read` as seen by `perform_reads`: a chunk of
bytes, `Ok(0)` (EOF), `WouldBlock`, or another I/O error. -/
inductive ReadEv
  | chunk (bs : List Nat)
  | eofRead
  | wouldBlock
  | ioError
deriving DecidableEq, Repr

/-- `HttpServer::perform_reads` (src/http.rs lines 404-430) driven by a
script of socket read results; `none` means the script ran out while the
loop still wanted to read. Buffer growth is content-neutral (the zero
padding never reaches the parser) and is elided. Note that the `WouldBlock`
arm breaks out of the loop and then falls through to the final `Ok(true)`,
exactly as the source does — so a would-block drain reports `true`, the
same value as an EOF. -/
def performReads : List ReadEv → List Nat → Option (Except Unit (Bool × List Nat))
  | [], _ => none
  | .chunk bs :: rest, data => performReads rest (data ++ bs)
  | .eofRead :: _, data => some (.ok (true, data))
  | .wouldBlock :: _, data => some (.ok (true, data))
  | .ioError :: _, _ => some (.error ())

/-- The read-and-parse portion of `HttpServer::connection_readable`
(src/http.rs lines 365-379) for a connection already in reading mode: run
`perform_reads`, switch to writing when it reports the input done, then
attempt a parse. The subsequent immediate write flush (line 376) and the
error arm's removal are outside this function. -/
def readPhase (handler : HttpRequest → HttpResponse) (script : List ReadEv)
    (cx : Conn) : Option (Except Unit Conn) :=
  match performReads script (cx.buffer.take cx.bufferIdx) with
  | none => none
  | some (.error _) => some (.error ())
  | some (.ok (done, data)) =>
    let cx1 : Conn :=
      { buffer := data
        bufferIdx := data.length
        mode := if done then .writing else cx.mode }
    some (.ok (tryParseRequest handler cx1))

/-- `calc_next_token`'s probe loop (src/bin/chat_server.rs lines 152-166),
with explicit fuel because the Rust loop is not structurally terminating:
wrap the cursor to 1 when it sits at `usize::MAX - 2 = W - 3`, step to the
next candidate (with the wrapping `+ 1` of release-mode Rust made explicit
as `% W`), return the candidate if it is free, report exhaustion if the
probe is back at the starting token, and otherwise continue. `none` is fuel
running out; `some none` is the `None` (exhausted) return. -/
def calcLoop (used : Finset Nat) (last0 : Nat) : Nat → Nat → Option (Option Nat)
  | 0, _ => none
  | fuel + 1, last =>
    let l := if last = W - 3 then 1 else last
    let next := (l + 1) % W
    if next ∉ used then some (some next)
    else if next = last0 then some none
    else calcLoop used last0 fuel next

/-- `calc_next_token` (src/bin/chat_server.rs lines 149-167). Fuel `W`
bounds every terminating run of the loop, whose probe cycle has fewer than
`W` distinct values. -/
def calc_next_token (used : Finset Nat) (last_token : Nat) : Option (Option Nat) :=
  calcLoop used last_token W last_token

/-- One event of the allocate/release discipline of `main`
(src/bin/chat_server.rs lines 92-143): a successful accept inserts the
fresh token into `used_tokens` and remembers it as `last_token`; a cleanup
removes a token. -/
inductive TokOp
  | alloc
  | release (t : Nat)

/-- The `(used_tokens, last_token)` pair owned by the event loop. -/
structure AllocSt where
  used : Finset Nat
  last : Nat

/-- Effect of one `TokOp` on the loop state. An allocation that fails
(exhaustion) aborts the process in `main`; here it leaves the state
unchanged. -/
def applyOp (s : AllocSt) : TokOp → AllocSt
  | .alloc =>
    match calc_next_token s.used s.last with
    | some (some t) => ⟨insert t s.used, t⟩
    | _ => s
  | .release t => ⟨s.used.erase t, s.last⟩

/-- The loop state after a sequence of events, from the initial empty
`used_tokens` set and `last_token = Token(0)`
(src/bin/chat_server.rs lines 73-74). -/
def applyOps (ops : List TokOp) : AllocSt :=
  ops.foldl applyOp ⟨∅, 0⟩

/-- The successor of a probe cursor in `calc_next_token`'s loop: the cursor
wraps to 1 at `W - 3`, and the candidate examined is the cursor plus one.
For cursors in `1..=W-3` this is exactly the `next` the loop computes. -/
def probeNext (x : Nat) : Nat := (if x = W - 3 then 1 else x) + 1

/-- Number of probe steps the loop takes, starting with cursor `cur`, until
the candidate equals `x`: the distance to `x` along the probe order
`cur+1, cur+2, …, W-3, 2, 3, …`. -/
def probeDist (cur x : Nat) : Nat :=
  if cur < x then x - cur else (W - 3 - cur) + (x - 1)

/-- Whether a byte sequence contains a CRLF pair; specification-side helper
relating a buffer to its CRLF-split. -/
def containsCRLF : List Nat → Bool
  | [] => false
  | b :: rest => if b = 13 ∧ rest.head? = some 10 then true else containsCRLF rest

/-- The first CRLF-delimited piece of a buffer — the bytes the parser treats
as the request line. -/
def firstPiece (data : List Nat) : List Nat :=
  match splitCRLF data with
  | l :: _ => l
  | [] => []

/-- Whether `pat` occurs at the very start of `l`. -/
def startsWithB : List Nat → List Nat → Bool
  | [], _ => true
  | _ :: _, [] => false
  | p :: ps, b :: bs => p = b && startsWithB ps bs

/-- Occurrences of a byte pattern in a byte sequence, counted at every
starting position; specification-side helper for counting `Content-Length`
in serializer output. -/
def countOccur (pat : List Nat) : List Nat → Nat
  | [] => 0
  | b :: rest =>
    (if startsWithB pat (b :: rest) then 1 else 0) + countOccur pat rest

/-- The header lines of a serialized response, as the serializer writes
them: the stored headers in order, then the synthesized `Content-Length`,
then `Connection: Close`. -/
def headerLines (r : HttpResponse) : List (List Nat) :=
  r.headers.map (fun nv => nv.1 ++ [58, 32] ++ nv.2)
    ++ [toB "Content-Length: " ++ toDec (bodyBytes r.body).length]
    ++ [toB "Connection: Close"]

/-- A handler returning a fixed response, used to evaluate the connection
pipeline at concrete inputs. -/
def constHandler : HttpRequest → HttpResponse :=
  fun _ => HttpResponse.new (toB "HTTP/1.1") 200 [] (.str (toB "ok"))

/-! ## Structural lemmas about the CRLF split -/

theorem splitCRLF_ne_nil (l : List Nat) : splitCRLF l ≠ [] := by
  induction l using splitCRLF.induct with
  | case1 => simp [splitCRLF]
  | case2 rest ih => simp [splitCRLF]
  | case3 b rest hne h t heq ih => simp [splitCRLF, heq]
  | case4 b rest hne heq ih => exact absurd heq ih

theorem containsCRLF_cons_of_ne {b : Nat} {rest : List Nat}
    (hne : ∀ r, b = 13 → rest = 10 :: r → False) :
    containsCRLF (b :: rest) = containsCRLF rest := by
  rw [containsCRLF, if_neg]
  rintro ⟨hb, hh⟩
  cases rest with
  | nil => simp at hh
  | cons b2 r2 =>
    simp at hh
    exact hne r2 hb (by rw [hh])

theorem splitCRLF_of_not_contains {l : List Nat} (h : containsCRLF l = false) :
    splitCRLF l = [l] := by
  induction l using splitCRLF.induct with
  | case1 => simp [splitCRLF]
  | case2 rest ih => simp [containsCRLF] at h
  | case3 b rest hne h' t heq ih =>
    rw [containsCRLF_cons_of_ne hne] at h
    rw [ih h] at heq
    cases heq
    simp [splitCRLF, ih h]
  | case4 b rest hne heq ih => exact absurd heq (splitCRLF_ne_nil rest)

theorem firstPiece_cons_of_ne {b : Nat} {x : List Nat}
    (hk : ∀ r, b = 13 → x = 10 :: r → False) :
    firstPiece (b :: x) = b :: firstPiece x := by
  cases hsp : splitCRLF x with
  | nil => exact absurd hsp (splitCRLF_ne_nil x)
  | cons h t => simp [firstPiece, splitCRLF.eq_3 b x hk, hsp]

theorem firstPiece_append {p s : List Nat} (h : containsCRLF p = true) :
    firstPiece (p ++ s) = firstPiece p := by
  induction p using splitCRLF.induct with
  | case1 => simp [containsCRLF] at h
  | case2 rest ih => simp [firstPiece, splitCRLF]
  | case3 b rest hne h' t heq ih =>
    rw [containsCRLF_cons_of_ne hne] at h
    have h2 : ∀ r, b = 13 → rest ++ s = 10 :: r → False := by
      intro r hb hr
      cases rest with
      | nil =>
        rw [splitCRLF_of_not_contains (by simp [containsCRLF])] at heq
        cases heq
        simp [containsCRLF] at h
      | cons b2 r2 =>
        simp at hr
        exact hne r2 hb (by rw [hr.1])
    rw [List.cons_append, firstPiece_cons_of_ne h2, firstPiece_cons_of_ne hne, ih h]
  | case4 b rest hne heq ih => exact absurd heq (splitCRLF_ne_nil rest)
theorem headerLineScan_mpv (line : List Nat) (st : ScanSt) :
    (headerLineScan line st).method = st.method ∧
    (headerLineScan line st).path = st.path ∧
    (headerLineScan line st).version = st.version ∧
    (headerLineScan line st).state = st.state ∧
    (headerLineScan line st).bodyStart = st.bodyStart := by
  rw [headerLineScan]
  rcases hsc : splitColon line with ⟨name, ov⟩
  cases ov <;> simp

theorem scanLines_keeps_mpv {lines : List (List Nat)} {st : ScanSt}
    (h : st.state ≠ .readingRequestLine) :
    (scanLines lines st).method = st.method ∧
    (scanLines lines st).path = st.path ∧
    (scanLines lines st).version = st.version := by
  induction lines generalizing st with
  | nil => simp [scanLines]
  | cons line rest ih =>
    rw [scanLines]
    cases hst : st.state with
    | readingRequestLine => exact absurd hst h
    | readingHeaderLines =>
      simp only [hst]
      by_cases hl : line = []
      · simp [hl]
      · simp only [hl, if_false]
        have hh := headerLineScan_mpv line
          { bodyStart := st.bodyStart + line.length + 2, headers := st.headers,
            method := st.method, path := st.path, version := st.version,
            bodyLen := st.bodyLen, state := .readingHeaderLines }
        have hihst : (headerLineScan line
            { bodyStart := st.bodyStart + line.length + 2, headers := st.headers,
              method := st.method, path := st.path, version := st.version,
              bodyLen := st.bodyLen, state := .readingHeaderLines }).state
            ≠ PState.readingRequestLine := by
          rw [hh.2.2.2.1]
          simp
        have hi := ih hihst
        rw [hi.1, hi.2.1, hi.2.2, hh.1, hh.2.1, hh.2.2.1]
        exact ⟨rfl, rfl, rfl⟩
    | doneReadingHeaderLines =>
      simp only [hst]
      simp

theorem scanOf_mpv (data : List Nat) :
    (scanOf data).method = methodOfLine (firstPiece data) ∧
    (scanOf data).path = (splitWS (firstPiece data))[1]? ∧
    (scanOf data).version = (splitWS (firstPiece data))[2]? := by
  rw [scanOf]
  cases hsp : splitCRLF data with
  | nil => exact absurd hsp (splitCRLF_ne_nil data)
  | cons l0 rest =>
    have hfp : firstPiece data = l0 := by rw [firstPiece, hsp]
    have hstep : scanLines (l0 :: rest) ({} : ScanSt)
        = scanLines rest (requestLineScan l0
            { bodyStart := 0 + l0.length + 2, headers := [], method := none,
              path := none, version := none, bodyLen := none,
              state := .readingRequestLine }) := rfl
    rw [hstep]
    have h := @scanLines_keeps_mpv rest
      (requestLineScan l0
        { bodyStart := 0 + l0.length + 2, headers := [], method := none,
          path := none, version := none, bodyLen := none,
          state := .readingRequestLine })
      (by simp [requestLineScan])
    rw [hfp, h.1, h.2.1, h.2.2]
    exact ⟨rfl, rfl, rfl⟩
theorem parse_complete_st {data : List Nat} {done : Bool} {r : HttpRequest}
    (h : parse data done = .complete r) :
    (scanOf data).state = .doneReadingHeaderLines ∧
    (scanOf data).method = some r.method ∧
    (scanOf data).path = some r.path ∧
    (scanOf data).version = some r.version := by
  rw [parse] at h
  split at h
  · split at h <;> simp at h
  · split at h <;> simp at h
  · rename_i hst
    split at h
    · rename_i m p v hm hp hv
      split at h
      · rename_i hg
        cases h
        exact ⟨hst, by rw [hm, hg], hp, hv⟩
      · split at h
        · cases h
          exact ⟨hst, hm, hp, hv⟩
        · simp at h
    · simp at h
theorem parse_complete_contains {data : List Nat} {done : Bool} {r : HttpRequest}
    (h : parse data done = .complete r) : containsCRLF data = true := by
  by_contra hc
  simp only [Bool.not_eq_true] at hc
  have hsp := splitCRLF_of_not_contains hc
  have hst := (parse_complete_st h).1
  rw [scanOf, hsp] at hst
  have hstep : scanLines [data] ({} : ScanSt)
      = requestLineScan data
          { bodyStart := 0 + data.length + 2, headers := [], method := none,
            path := none, version := none, bodyLen := none,
            state := .readingRequestLine } := rfl
  rw [hstep] at hst
  simp [requestLineScan] at hst

theorem scanLines_state_hl {lines : List (List Nat)} {st : ScanSt}
    (hst : st.state = .readingHeaderLines)
    (hall : ∀ l ∈ lines, l ≠ ([] : List Nat)) :
    (scanLines lines st).state = .readingHeaderLines := by
  induction lines generalizing st with
  | nil => simpa [scanLines] using hst
  | cons line rest ih =>
    rw [scanLines]
    simp only [hst]
    have hl : ¬(line = []) := hall line (by simp)
    simp only [hl, if_false]
    have hh := headerLineScan_mpv line
      { bodyStart := st.bodyStart + line.length + 2, headers := st.headers,
        method := st.method, path := st.path, version := st.version,
        bodyLen := st.bodyLen, state := .readingHeaderLines }
    exact ih (by rw [hh.2.2.2.1]) (fun l hml => hall l (by simp [hml]))
/-- Claim C2, counterexample: parsing the strict prefix
`"GET /x HTTP/1.1\r\n"` of the request text
`"GET /x HTTP/1.1\r\nH: v\r\n\r\n"` with `input_closed = false` returns a
completed request (with an empty header list) that differs from the
completed request the full text parses to (one header), refuting the claim
that a strict prefix never returns a different completed request. -/
theorem c2_counterexample_truncated_headers :
    parse (toB "GET /x HTTP/1.1\r\n") false
        = .complete ⟨none, [], .GET, toB "/x", toB "HTTP/1.1"⟩
    ∧ parse (toB "GET /x HTTP/1.1\r\n" ++ toB "H: v\r\n\r\n") false
        = .complete ⟨none, [(toB "H", toB "v")], .GET, toB "/x", toB "HTTP/1.1"⟩
    ∧ (⟨none, [], .GET, toB "/x", toB "HTTP/1.1"⟩ : HttpRequest)
        ≠ ⟨none, [(toB "H", toB "v")], .GET, toB "/x", toB "HTTP/1.1"⟩ := by
  refine ⟨by decide, by decide, by decide⟩

/-- Claim C2, amended: whenever both a text and an extension of it parse to
completed requests, the two completed requests agree on method, path and
version (the request line is fixed by the first CRLF-terminated line, which
a completed prefix must already contain); headers and body may differ. -/
theorem c2_prefix_complete_agrees_on_request_line
    {p s : List Nat} {b b' : Bool} {r r' : HttpRequest}
    (hp : parse p b = .complete r) (hq : parse (p ++ s) b' = .complete r') :
    r.method = r'.method ∧ r.path = r'.path ∧ r.version = r'.version := by
  have h1 := parse_complete_st hp
  have h2 := parse_complete_st hq
  have m1 := scanOf_mpv p
  have m2 := scanOf_mpv (p ++ s)
  have hfp := firstPiece_append (s := s) (parse_complete_contains hp)
  refine ⟨?_, ?_, ?_⟩
  · have e1 : methodOfLine (firstPiece p) = some r.method := by rw [← m1.1, h1.2.1]
    have e2 : methodOfLine (firstPiece p) = some r'.method := by
      rw [← hfp, ← m2.1, h2.2.1]
    rw [e1] at e2
    exact Option.some_injective _ e2
  · have e1 : (splitWS (firstPiece p))[1]? = some r.path := by rw [← m1.2.1, h1.2.2.1]
    have e2 : (splitWS (firstPiece p))[1]? = some r'.path := by
      rw [← hfp, ← m2.2.1, h2.2.2.1]
    rw [e1] at e2
    exact Option.some_injective _ e2
  · have e1 : (splitWS (firstPiece p))[2]? = some r.version := by rw [← m1.2.2, h1.2.2.2]
    have e2 : (splitWS (firstPiece p))[2]? = some r'.version := by
      rw [← hfp, ← m2.2.2, h2.2.2.2]
    rw [e1] at e2
    exact Option.some_injective _ e2

/-- Witness for C2's amended theorem at a concrete prefix/extension pair. -/
theorem c2_prefix_complete_agrees_on_request_line_witness :
    (⟨none, [], .GET, toB "/a", toB "HTTP/1.0"⟩ : HttpRequest).method
        = (⟨none, [(toB "K", toB "w")], .GET, toB "/a", toB "HTTP/1.0"⟩ : HttpRequest).method
    ∧ (⟨none, [], .GET, toB "/a", toB "HTTP/1.0"⟩ : HttpRequest).path
        = (⟨none, [(toB "K", toB "w")], .GET, toB "/a", toB "HTTP/1.0"⟩ : HttpRequest).path
    ∧ (⟨none, [], .GET, toB "/a", toB "HTTP/1.0"⟩ : HttpRequest).version
        = (⟨none, [(toB "K", toB "w")], .GET, toB "/a", toB "HTTP/1.0"⟩ : HttpRequest).version :=
  c2_prefix_complete_agrees_on_request_line
    (show parse (toB "GET /a HTTP/1.0\r\n") false
        = .complete ⟨none, [], .GET, toB "/a", toB "HTTP/1.0"⟩ by decide)
    (show parse (toB "GET /a HTTP/1.0\r\n" ++ toB "K: w\r\n\r\n") false
        = .complete ⟨none, [(toB "K", toB "w")], .GET, toB "/a", toB "HTTP/1.0"⟩ by decide)
/-- Claim C3, counterexample: `parse("GET /x\r\n", false)` is Malformed,
not Incomplete as the claim states — the trailing CRLF yields an empty
split piece that terminates the header section with the version still
unresolved (the code's own test asserts the same on "GET /chats\r\n"). -/
theorem c3_counterexample_trailing_crlf :
    parse (toB "GET /x\r\n") false = .malformed
    ∧ parse (toB "GET /x\r\n") false ≠ .incomplete := by
  refine ⟨by decide, by decide⟩

/-- Claim C3, amended: for every buffer whose CRLF-split has no empty piece
after the first (no empty line reached; in particular the buffer does not
end in CRLF), parse returns Incomplete when the input is not closed and
Malformed when it is. This covers `parse("", true) = Malformed` and
`parse("GET /x", false) = Incomplete`. -/
theorem c3_unterminated_headers_incomplete_or_malformed
    (data : List Nat)
    (hall : ((splitCRLF data).tail.all (fun l => !l.isEmpty)) = true) :
    parse data false = .incomplete ∧ parse data true = .malformed := by
  have hstate : (scanOf data).state = .readingHeaderLines := by
    cases hsp : splitCRLF data with
    | nil => exact absurd hsp (splitCRLF_ne_nil data)
    | cons l0 rest =>
      rw [scanOf, hsp]
      have hstep : scanLines (l0 :: rest) ({} : ScanSt)
          = scanLines rest (requestLineScan l0
              { bodyStart := 0 + l0.length + 2, headers := [], method := none,
                path := none, version := none, bodyLen := none,
                state := .readingRequestLine }) := rfl
      rw [hstep]
      apply scanLines_state_hl (by simp [requestLineScan])
      intro l hml
      rw [hsp] at hall
      simp only [List.tail_cons, List.all_eq_true] at hall
      simpa using hall l hml
  constructor <;> simp [parse, hstate]

/-- Witness for C3's amended theorem at the buffer `"GET /x"`. -/
theorem c3_unterminated_headers_incomplete_or_malformed_witness :
    parse (toB "GET /x") false = .incomplete
    ∧ parse (toB "GET /x") true = .malformed :=
  c3_unterminated_headers_incomplete_or_malformed (toB "GET /x") (by decide)
/-- Claim C4: for every request text with terminated headers and resolved
POST method, path and version, parse returns Complete — with the observed
body attached — exactly when the input is closed or the captured
Content-Length equals the observed body length, and Incomplete otherwise;
together with the spec's concrete example
(`"POST /x HTTP/1.1\r\nContent-Length: 4\r\n\r\nab"` is Incomplete, and
appending `"cd"` completes with body `"abcd"`). -/
theorem c4_post_completion :
    (∀ (data : List Nat) (done : Bool) (p v : List Nat),
      (scanOf data).state = .doneReadingHeaderLines →
      (scanOf data).method = some .POST →
      (scanOf data).path = some p →
      (scanOf data).version = some v →
      ((done = true ∨ (scanOf data).bodyLen = some (bodyOf data).length →
          parse data done
            = .complete ⟨some (bodyOf data), (scanOf data).headers, .POST, p, v⟩)
        ∧ (done = false → (scanOf data).bodyLen ≠ some (bodyOf data).length →
          parse data done = .incomplete)))
    ∧ parse (toB "POST /x HTTP/1.1\r\nContent-Length: 4\r\n\r\nab") false = .incomplete
    ∧ parse (toB "POST /x HTTP/1.1\r\nContent-Length: 4\r\n\r\nabcd") false
        = .complete ⟨some (toB "abcd"), [(toB "Content-Length", toB "4")],
            .POST, toB "/x", toB "HTTP/1.1"⟩ := by
  refine ⟨?_, by decide, by decide⟩
  intro data done p v hst hm hp hv
  constructor
  · intro hcond
    simp only [parse, hst, hm, hp, hv]
    rcases hcond with hd | hb
    · subst hd
      simp
    · simp [hb]
  · intro hd hb
    subst hd
    simp only [parse, hst, hm, hp, hv]
    simp [hb]

/-- Witness for C4's characterization at a concrete POST request. -/
theorem c4_post_completion_witness :
    parse (toB "POST /y HTTP/1.0\r\nContent-Length: 2\r\n\r\nhi") false
      = .complete ⟨some (bodyOf (toB "POST /y HTTP/1.0\r\nContent-Length: 2\r\n\r\nhi")),
          (scanOf (toB "POST /y HTTP/1.0\r\nContent-Length: 2\r\n\r\nhi")).headers,
          .POST, toB "/y", toB "HTTP/1.0"⟩ :=
  (c4_post_completion.1 (toB "POST /y HTTP/1.0\r\nContent-Length: 2\r\n\r\nhi") false
      (toB "/y") (toB "HTTP/1.0")
      (by decide) (by decide) (by decide) (by decide)).1
    (Or.inr (by decide))

/-- Claim C10: when the accumulated read-buffer bytes are not valid UTF-8,
the parse attempt (`try_parse_request`) leaves the connection entirely
unchanged for every handler — no request is parsed, the handler is never
consulted, no response (not even a 400) is produced, and the mode, buffer
and cursor are untouched. -/
theorem c10_non_utf8_parse_attempt_is_noop
    (handler : HttpRequest → HttpResponse) (cx : Conn)
    (h : utf8Valid (cx.buffer.take cx.bufferIdx) = false) :
    tryParseRequest handler cx = cx := by
  rw [tryParseRequest, if_neg]
  simp [h]

/-- Witness for C10 at the one-byte buffer `[0xFF]`. -/
theorem c10_non_utf8_parse_attempt_is_noop_witness :
    utf8Valid ((⟨[255], 1, .reading⟩ : Conn).buffer.take (⟨[255], 1, .reading⟩ : Conn).bufferIdx) = false
    ∧ tryParseRequest constHandler ⟨[255], 1, .reading⟩ = ⟨[255], 1, .reading⟩ :=
  ⟨by decide, c10_non_utf8_parse_attempt_is_noop constHandler ⟨[255], 1, .reading⟩ (by decide)⟩

/-- Claim C5, counterexample: a connection whose accumulated input `[0xFF]`
is structurally invalid (not even decodable) with input closed (mode
already Writing, so the parser would see `input_closed = true`) gets no
400 response: the parse attempt leaves the connection untouched and the
buffer never holds the serialized 400. -/
theorem c5_counterexample_non_utf8_gets_no_400 :
    tryParseRequest constHandler ⟨[255], 1, .writing⟩ = ⟨[255], 1, .writing⟩
    ∧ (tryParseRequest constHandler ⟨[255], 1, .writing⟩).buffer ≠ unparse resp400 := by
  refine ⟨by decide, by decide⟩

/-- Claim C5, amended: for every connection whose accumulated bytes decode
as UTF-8 and parse as Malformed, `try_parse_request` writes the serialized
fixed 400 response (empty body, no custom headers) into the buffer, resets
the cursor, and moves the connection to Writing — for every handler, which
is never invoked on this path. -/
theorem c5_malformed_yields_fixed_400
    (handler : HttpRequest → HttpResponse) (cx : Conn)
    (hu : utf8Valid (cx.buffer.take cx.bufferIdx) = true)
    (hm : parse (cx.buffer.take cx.bufferIdx) cx.mode.isWriting = .malformed) :
    tryParseRequest handler cx = ⟨unparse resp400, 0, .writing⟩ := by
  rw [tryParseRequest, if_pos hu, hm]

/-- Witness for C5's amended theorem at the malformed buffer `"X\r\n\r\n"`. -/
theorem c5_malformed_yields_fixed_400_witness :
    tryParseRequest constHandler ⟨toB "X\r\n\r\n", 5, .reading⟩ = ⟨unparse resp400, 0, .writing⟩ :=
  c5_malformed_yields_fixed_400 constHandler ⟨toB "X\r\n\r\n", 5, .reading⟩ (by decide) (by decide)

/-- Claim C1, code-bug evidence: a drain that ends in WouldBlock makes
`perform_reads` return `Ok(true)` — the same "input closed" verdict as a
zero-byte read — so the readable path switches the connection to Writing
and invokes the parser with `input_closed = true`, sending a 400 for a
partial request instead of staying in Reading with `input_closed = false`
as the claim (and the function's own doc comment) requires. -/
theorem c1_would_block_drain_reported_as_input_closed :
    performReads [.chunk (toB "GET /x HTT"), .wouldBlock] []
      = some (.ok (true, toB "GET /x HTT"))
    ∧ readPhase constHandler [.chunk (toB "GET /x HTT"), .wouldBlock] ⟨[], 0, .reading⟩
      = some (.ok ⟨unparse resp400, 0, .writing⟩)
    ∧ performReads [.chunk (toB "GET /x HTT"), .eofRead] []
      = performReads [.chunk (toB "GET /x HTT"), .wouldBlock] [] := by
  refine ⟨by rfl, by rfl, by rfl⟩
theorem foldl_header_append (hs : List (List Nat × List Nat)) (acc : List Nat) :
    hs.foldl (fun a nv => a ++ nv.1 ++ [58, 32] ++ nv.2 ++ crlfB) acc
      = acc ++ (hs.map (fun nv => nv.1 ++ [58, 32] ++ nv.2 ++ crlfB)).flatten := by
  induction hs generalizing acc with
  | nil => simp
  | cons nv rest ih =>
    simp only [List.foldl_cons, ih, List.map_cons, List.flatten_cons]
    simp [List.append_assoc]

theorem startsWithB_append_self (p x : List Nat) : startsWithB p (p ++ x) = true := by
  induction p with
  | nil => simp [startsWithB]
  | cons b bs ih => simp [startsWithB, ih]

/-- Claim C6, amended: the serialized bytes are exactly the status line,
each stored header as `name: value CRLF` in list order, the synthesized
`Content-Length` (value = byte length of the body), `Connection: Close`,
a blank line, and the body verbatim; the output ends with
`Connection: Close\r\n\r\n<body>`; and the header section carries exactly
one Content-Length line provided no stored header serializes to a line
that begins with `Content-Length:`. -/
theorem c6_unparse_layout (r : HttpResponse) :
    unparse r
      = r.version ++ [32] ++ toDec r.status ++ [32] ++ r.statusText ++ crlfB
        ++ (r.headers.map (fun nv => nv.1 ++ [58, 32] ++ nv.2 ++ crlfB)).flatten
        ++ toB "Content-Length: " ++ toDec (bodyBytes r.body).length ++ crlfB
        ++ toB "Connection: Close" ++ crlfB
        ++ crlfB ++ bodyBytes r.body
    ∧ (∃ pre, unparse r
        = pre ++ toB "Connection: Close" ++ crlfB ++ crlfB ++ bodyBytes r.body)
    ∧ ((∀ nv ∈ r.headers,
          startsWithB (toB "Content-Length:") (nv.1 ++ [58, 32] ++ nv.2) = false) →
        ((headerLines r).filter (fun l => startsWithB (toB "Content-Length:") l)).length
          = 1) := by
  refine ⟨?_, ?_, ?_⟩
  · rw [unparse, foldl_header_append]
  · refine ⟨r.version ++ [32] ++ toDec r.status ++ [32] ++ r.statusText ++ crlfB
      ++ (r.headers.map (fun nv => nv.1 ++ [58, 32] ++ nv.2 ++ crlfB)).flatten
      ++ toB "Content-Length: " ++ toDec (bodyBytes r.body).length ++ crlfB, ?_⟩
    rw [unparse, foldl_header_append]
  · intro hnone
    rw [headerLines, List.filter_append, List.filter_append]
    have h1 : (r.headers.map (fun nv => nv.1 ++ [58, 32] ++ nv.2)).filter
        (fun l => startsWithB (toB "Content-Length:") l) = [] := by
      rw [List.filter_eq_nil_iff]
      intro l hl
      rw [List.mem_map] at hl
      obtain ⟨nv, hnv, rfl⟩ := hl
      simpa using hnone nv hnv
    have h2 : startsWithB (toB "Content-Length:")
        (toB "Content-Length: " ++ toDec (bodyBytes r.body).length) = true := by
      have he : toB "Content-Length: " = toB "Content-Length:" ++ [32] := by decide
      rw [he, List.append_assoc]
      exact startsWithB_append_self _ _
    have h3 : startsWithB (toB "Content-Length:") (toB "Connection: Close") = false := by
      decide
    rw [h1]
    simp [List.filter, h2, h3]

/-- Witness for C6's amended count at a response with one ordinary header. -/
theorem c6_unparse_layout_witness :
    ((headerLines (HttpResponse.new (toB "HTTP/1.1") 200 [(toB "X", toB "y")] (.str (toB "hi")))).filter
        (fun l => startsWithB (toB "Content-Length:") l)).length = 1 :=
  (c6_unparse_layout (HttpResponse.new (toB "HTTP/1.1") 200 [(toB "X", toB "y")] (.str (toB "hi")))).2.2
    (by decide)

/-- Claim C6, counterexample: a response constructed with the header list
`[("Content-Length", "0")]` serializes with two `Content-Length:` header
lines, so the output does not contain exactly one Content-Length header
for every constructed response. -/
theorem c6_counterexample_two_content_lengths :
    countOccur (toB "Content-Length:")
      (unparse (HttpResponse.new (toB "HTTP/1.1") 200 [(toB "Content-Length", toB "0")] (.str [])))
      = 2 := by
  decide
theorem probeNext_mod {cur : Nat} (h2 : cur ≤ W - 3) : probeNext cur % W = probeNext cur := by
  have hW : W = 18446744073709551616 := rfl
  rw [probeNext]
  apply Nat.mod_eq_of_lt
  split <;> omega

theorem probeNext_bounds {cur : Nat} (h1 : 1 ≤ cur) (h2 : cur ≤ W - 3) :
    2 ≤ probeNext cur ∧ probeNext cur ≤ W - 3 := by
  have hW : W = 18446744073709551616 := rfl
  rw [probeNext]
  split <;> omega

theorem calcLoop_step (used : Finset Nat) (last0 fuel last : Nat) :
    calcLoop used last0 (fuel + 1) last
      = (if probeNext last % W ∉ used then some (some (probeNext last % W))
        else if probeNext last % W = last0 then some none
        else calcLoop used last0 fuel (probeNext last % W)) := rfl

theorem calcLoop_some_bounds {used : Finset Nat} {last0 : Nat} :
    ∀ fuel cur t, cur ≤ W - 3 →
    calcLoop used last0 fuel cur = some (some t) →
    t ∉ used ∧ 1 ≤ t ∧ t ≤ W - 3 := by
  intro fuel
  induction fuel with
  | zero =>
    intro cur t h hc
    simp [calcLoop] at hc
  | succ fuel ih =>
    intro cur t h hc
    have hW : W = 18446744073709551616 := rfl
    rw [calcLoop_step, probeNext_mod h] at hc
    have hb : 1 ≤ probeNext cur ∧ probeNext cur ≤ W - 3 := by
      rw [probeNext]
      split <;> omega
    split at hc
    · rename_i hnotin
      cases hc
      exact ⟨hnotin, hb⟩
    · split at hc
      · simp at hc
      · exact ih _ t hb.2 hc

theorem applyOps_last_le (ops : List TokOp) : (applyOps ops).last ≤ W - 3 := by
  have hW : W = 18446744073709551616 := rfl
  rw [applyOps]
  have main : ∀ (l : List TokOp) (s : AllocSt), s.last ≤ W - 3 →
      (l.foldl applyOp s).last ≤ W - 3 := by
    intro l
    induction l with
    | nil => intro s hs; simpa using hs
    | cons op rest ih =>
      intro s hs
      rw [List.foldl_cons]
      apply ih
      cases op with
      | alloc =>
        rw [applyOp]
        cases hc : calc_next_token s.used s.last with
        | none => simpa using hs
        | some o =>
          cases o with
          | none => simpa using hs
          | some t =>
            rw [calc_next_token] at hc
            have := calcLoop_some_bounds W s.last t hs hc
            simpa using this.2.2
      | release t => simpa [applyOp] using hs
  refine main ops ⟨∅, 0⟩ ?_
  show (0 : Nat) ≤ W - 3
  omega

/-- Claim C7: along every sequence of allocate/release operations started
from the program's initial state (empty used set, `last_token = 0`), any
identifier the allocator returns is not in the current used set and is not
0; hence each allocation is fresh among the simultaneously-open
connections, and identifier 0 is never reassigned. -/
theorem c7_allocated_token_fresh_and_nonzero (ops : List TokOp) (t : Nat)
    (h : calc_next_token (applyOps ops).used (applyOps ops).last = some (some t)) :
    t ∉ (applyOps ops).used ∧ t ≠ 0 := by
  have hl := applyOps_last_le ops
  rw [calc_next_token] at h
  have hb := calcLoop_some_bounds W (applyOps ops).last t hl h
  exact ⟨hb.1, by omega⟩

/-- Witness for C7 on the empty operation sequence: the first allocation
returns 1, which is free and nonzero. -/
theorem c7_allocated_token_fresh_and_nonzero_witness :
    calc_next_token (applyOps []).used (applyOps []).last = some (some 1)
    ∧ (1 ∉ (applyOps []).used ∧ 1 ≠ 0) :=
  ⟨by decide, c7_allocated_token_fresh_and_nonzero [] 1 (by decide)⟩
theorem probeDist_pos {cur x : Nat} (hx : 2 ≤ x) (hc : cur ≤ W - 3) : 1 ≤ probeDist cur x := by
  have hW : W = 18446744073709551616 := rfl
  rw [probeDist]
  split <;> omega

theorem probeDist_self {cur : Nat} (h1 : 2 ≤ cur) (h2 : cur ≤ W - 3) :
    probeDist cur cur = W - 4 := by
  have hW : W = 18446744073709551616 := rfl
  rw [probeDist]
  split <;> omega

theorem probeDist_le_cycle {cur x : Nat} (h1 : 2 ≤ cur) (h2 : cur ≤ W - 3)
    (hx1 : 2 ≤ x) (hx2 : x ≤ W - 3) : probeDist cur x ≤ W - 4 := by
  have hW : W = 18446744073709551616 := rfl
  rw [probeDist]
  split <;> omega

theorem probeDist_probeNext_self {cur : Nat} (h1 : 1 ≤ cur) (h2 : cur ≤ W - 3) :
    probeDist cur (probeNext cur) = 1 := by
  have hW : W = 18446744073709551616 := rfl
  rw [probeDist, probeNext]
  split <;> split <;> omega

theorem probeDist_eq_one {cur y : Nat} (hc1 : 1 ≤ cur) (hc2 : cur ≤ W - 3)
    (hy1 : 2 ≤ y) (hy2 : y ≤ W - 3) (h : probeDist cur y = 1) : y = probeNext cur := by
  have hW : W = 18446744073709551616 := rfl
  rw [probeDist] at h
  rw [probeNext]
  split at h <;> split <;> omega

theorem probeDist_step {cur y : Nat} (hc1 : 1 ≤ cur) (hc2 : cur ≤ W - 3)
    (hy1 : 2 ≤ y) (hy2 : y ≤ W - 3) (hne : y ≠ probeNext cur) :
    probeDist cur y = probeDist (probeNext cur) y + 1 := by
  have hW : W = 18446744073709551616 := rfl
  rw [probeNext] at hne ⊢
  by_cases hw : cur = W - 3
  · rw [if_pos hw] at hne ⊢
    rw [probeDist, probeDist]
    split <;> split <;> omega
  · rw [if_neg hw] at hne ⊢
    rw [probeDist, probeDist]
    split <;> split <;> omega
theorem calcLoop_none_of_all_used {used : Finset Nat} {last0 : Nat}
    (hl1 : 2 ≤ last0) (hl2 : last0 ≤ W - 3)
    (hall : ∀ x, 2 ≤ x → x ≤ W - 3 → x ∈ used) :
    ∀ fuel cur, 1 ≤ cur → cur ≤ W - 3 → probeDist cur last0 ≤ fuel →
    calcLoop used last0 fuel cur = some none := by
  intro fuel
  induction fuel with
  | zero =>
    intro cur h1 h2 hd
    have := probeDist_pos hl1 h2
    omega
  | succ fuel ih =>
    intro cur h1 h2 hd
    rw [calcLoop_step, probeNext_mod h2]
    have hb := probeNext_bounds h1 h2
    have hin : probeNext cur ∈ used := hall _ hb.1 hb.2
    rw [if_neg (by simp [hin])]
    by_cases he : probeNext cur = last0
    · rw [if_pos he]
    · rw [if_neg he]
      apply ih _ (by omega) hb.2
      have hstep := probeDist_step h1 h2 hl1 hl2 (Ne.symm he)
      omega

theorem calcLoop_terminates {used : Finset Nat} {last0 : Nat}
    (hl1 : 2 ≤ last0) (hl2 : last0 ≤ W - 3) :
    ∀ fuel cur, 1 ≤ cur → cur ≤ W - 3 → probeDist cur last0 ≤ fuel →
    calcLoop used last0 fuel cur ≠ none := by
  intro fuel
  induction fuel with
  | zero =>
    intro cur h1 h2 hd
    have := probeDist_pos hl1 h2
    omega
  | succ fuel ih =>
    intro cur h1 h2 hd
    rw [calcLoop_step, probeNext_mod h2]
    have hb := probeNext_bounds h1 h2
    by_cases hfree : probeNext cur ∉ used
    · rw [if_pos hfree]
      simp
    · rw [if_neg hfree]
      by_cases he : probeNext cur = last0
      · rw [if_pos he]
        simp
      · rw [if_neg he]
        apply ih _ (by omega) hb.2
        have hstep := probeDist_step h1 h2 hl1 hl2 (Ne.symm he)
        omega

theorem calcLoop_not_exhausted_of_free {used : Finset Nat} {last0 t : Nat}
    (ht1 : 2 ≤ t) (ht2 : t ≤ W - 3) (htf : t ∉ used)
    (hl1 : 2 ≤ last0) (hl2 : last0 ≤ W - 3) :
    ∀ fuel cur, 1 ≤ cur → cur ≤ W - 3 →
    probeDist cur t ≤ probeDist cur last0 →
    calcLoop used last0 fuel cur ≠ some none := by
  intro fuel
  induction fuel with
  | zero =>
    intro cur h1 h2 hinv
    simp [calcLoop]
  | succ fuel ih =>
    intro cur h1 h2 hinv
    rw [calcLoop_step, probeNext_mod h2]
    have hb := probeNext_bounds h1 h2
    by_cases hfree : probeNext cur ∉ used
    · rw [if_pos hfree]
      simp
    · rw [if_neg hfree]
      rw [not_not] at hfree
      have hnt : probeNext cur ≠ t := by
        intro he
        exact htf (he ▸ hfree)
      by_cases he : probeNext cur = last0
      · exfalso
        have hone := probeDist_probeNext_self h1 h2
        rw [he] at hone
        have hpos := probeDist_pos ht1 h2
        have : probeDist cur t = 1 := by omega
        exact hnt (probeDist_eq_one h1 h2 ht1 ht2 this).symm
      · rw [if_neg he]
        apply ih _ (by omega) hb.2
        have s1 := probeDist_step h1 h2 ht1 ht2 (Ne.symm hnt)
        have s2 := probeDist_step h1 h2 hl1 hl2 (Ne.symm he)
        omega
theorem calcLoop_first_free {used : Finset Nat} {last0 t : Nat}
    (ht1 : 2 ≤ t) (ht2 : t ≤ W - 3) (htf : t ∉ used)
    (hl2 : last0 ≤ W - 3) :
    ∀ fuel cur, 1 ≤ cur → cur ≤ W - 3 →
    probeDist cur t ≤ fuel →
    (∀ y, 2 ≤ y → y ≤ W - 3 → probeDist cur y < probeDist cur t → y ∈ used) →
    (2 ≤ last0 → probeDist cur t ≤ probeDist cur last0) →
    calcLoop used last0 fuel cur = some (some t) := by
  intro fuel
  induction fuel with
  | zero =>
    intro cur h1 h2 hfuel hbefore hinv
    have := probeDist_pos ht1 h2
    omega
  | succ fuel ih =>
    intro cur h1 h2 hfuel hbefore hinv
    rw [calcLoop_step, probeNext_mod h2]
    have hb := probeNext_bounds h1 h2
    by_cases hnt : probeNext cur = t
    · rw [if_pos (by rw [hnt]; exact htf), hnt]
    · have hdt1 : probeDist cur t ≠ 1 := by
        intro hone
        exact hnt (probeDist_eq_one h1 h2 ht1 ht2 hone).symm
      have hpos := probeDist_pos ht1 h2
      have hin : probeNext cur ∈ used := by
        apply hbefore _ hb.1 hb.2
        rw [probeDist_probeNext_self h1 h2]
        omega
      rw [if_neg (by simp [hin])]
      have hne0 : probeNext cur ≠ last0 := by
        intro he
        by_cases hl1 : 2 ≤ last0
        · have hone := probeDist_probeNext_self h1 h2
          rw [he] at hone
          have := hinv hl1
          omega
        · omega
      rw [if_neg hne0]
      have st := probeDist_step h1 h2 ht1 ht2 (Ne.symm hnt)
      apply ih _ (by omega) hb.2
      · omega
      · intro y hy1 hy2 hlt
        by_cases hyn : y = probeNext cur
        · rw [hyn]
          exact hin
        · apply hbefore y hy1 hy2
          have sy := probeDist_step h1 h2 hy1 hy2 hyn
          omega
      · intro hl1
        have sl := probeDist_step h1 h2 (by omega) hl2 (Ne.symm hne0)
        have := hinv hl1
        omega
/-- Claim C8 (amended): for a starting token in the recurring probe range,
the allocator terminates, and it reports exhaustion exactly when every
identifier of the probed range `2..=usize::MAX-2` is in use. -/
theorem c8_exhausted_iff_probed_range_used (used : Finset Nat) (last0 : Nat)
    (hl1 : 2 ≤ last0) (hl2 : last0 ≤ W - 3) :
    calc_next_token used last0 ≠ none
    ∧ (calc_next_token used last0 = some none
        ↔ ∀ x, 2 ≤ x → x ≤ W - 3 → x ∈ used) := by
  have hW : W = 18446744073709551616 := rfl
  have hcyc : probeDist last0 last0 = W - 4 := probeDist_self hl1 hl2
  constructor
  · rw [calc_next_token]
    apply calcLoop_terminates hl1 hl2 W last0 (by omega) hl2
    omega
  · constructor
    · intro hnone
      by_contra hnot
      push_neg at hnot
      obtain ⟨x, hx1, hx2, hxf⟩ := hnot
      rw [calc_next_token] at hnone
      refine calcLoop_not_exhausted_of_free hx1 hx2 hxf hl1 hl2 W last0 (by omega) hl2 ?_ hnone
      rw [hcyc]
      exact probeDist_le_cycle hl1 hl2 hx1 hx2
    · intro hall
      rw [calc_next_token]
      apply calcLoop_none_of_all_used hl1 hl2 hall W last0 (by omega) hl2
      omega

/-- Witness for C8's amended theorem. -/
theorem c8_exhausted_iff_probed_range_used_witness :
    calc_next_token (∅ : Finset Nat) 5 ≠ none
    ∧ (calc_next_token (∅ : Finset Nat) 5 = some none
        ↔ ∀ x, 2 ≤ x → x ≤ W - 3 → x ∈ (∅ : Finset Nat)) :=
  c8_exhausted_iff_probed_range_used ∅ 5 (by decide) (by decide)

/-- Claim C8 (counterexample): with exactly the probed range 2..=usize::MAX-2
in use, the allocator reports exhaustion although identifier 1 is a
representable identifier that is not in use. -/
theorem c8_counterexample_exhausted_with_free_identifier :
    calc_next_token (Finset.Icc 2 (W - 3)) (W - 3) = some none
    ∧ (1 : Nat) ∉ Finset.Icc 2 (W - 3)
    ∧ (1 : Nat) ≤ W - 1 := by
  have hW : W = 18446744073709551616 := rfl
  refine ⟨?_, ?_, by omega⟩
  · rw [calc_next_token]
    apply calcLoop_none_of_all_used (by omega) (by omega)
      (fun x hx1 hx2 => Finset.mem_Icc.mpr ⟨hx1, hx2⟩) W (W - 3) (by omega) (by omega)
    rw [probeDist_self (by omega) (by omega)]
    omega
  · rw [Finset.mem_Icc]
    omega

/-- Claim C9: the allocator returns the first free identifier along the
probe order that starts at `last + 1`, increases, and wraps from
`usize::MAX - 2` back to the low end (cursor reset to 1, next candidate 2),
skipping identifiers in the used set. -/
theorem c9_first_free_in_probe_order (used : Finset Nat) (last0 t : Nat)
    (hl1 : 1 ≤ last0) (hl2 : last0 ≤ W - 3)
    (ht1 : 2 ≤ t) (ht2 : t ≤ W - 3) (htf : t ∉ used)
    (hbefore : ∀ y, 2 ≤ y → y ≤ W - 3 → probeDist last0 y < probeDist last0 t → y ∈ used) :
    calc_next_token used last0 = some (some t) := by
  have hW : W = 18446744073709551616 := rfl
  rw [calc_next_token]
  apply calcLoop_first_free ht1 ht2 htf hl2 W last0 hl1 hl2 ?_ hbefore ?_
  · rw [probeDist]
    split <;> omega
  · intro hl1'
    rw [probeDist_self hl1' hl2]
    exact probeDist_le_cycle hl1' hl2 ht1 ht2

/-- Witness for C9. -/
theorem c9_first_free_in_probe_order_witness :
    calc_next_token ({2} : Finset Nat) 1 = some (some 3) :=
  c9_first_free_in_probe_order {2} 1 3 (by decide) (by decide) (by decide) (by decide)
    (by decide)
    (by
      intro y hy1 hy2 hlt
      have hW : W = 18446744073709551616 := rfl
      rw [probeDist, probeDist] at hlt
      rw [Finset.mem_singleton]
      split at hlt <;> split at hlt <;> omega)
